import Mathlib

/-!
Shallow embedding of the declarative patch/merge engine of the
`osg-htc/jupyterhub-hooks` repository: the value builder (`build_value`),
the patch engine (`apply_patch`), the group-scoped selector
(`get_servers`), and the override resolver (`merge_override` /
`options_form`), translated from `src/osg/jupyter/kubespawner.py` and
`src/osg/jupyterhub/kubespawner_hooks.py`.

Python's dynamically typed values are modelled by the inductive type
`Value`; Python dicts are association lists with (by the Python dict
invariant) pairwise distinct keys, in insertion order.  In-place
mutation is modelled by explicit state passing: `build_value` returns
both the built result and the raw value as it stands after the call
(because `raw_value.pop("_")` mutates the raw value in place), and
`apply_patch` returns the pod together with an optional error.
-/

namespace Hooks

/-- A Python value as it occurs in this program: `None`, booleans,
integers, strings, lists, dicts (string-keyed, insertion ordered),
and constructed Kubernetes API objects (class name plus keyword
arguments, as produced by `cls(**args)` in `build_value`). -/
inductive Value where
  | none : Value
  | bool : Bool → Value
  | int : Int → Value
  | str : String → Value
  | list : List Value → Value
  | dict : List (String × Value) → Value
  | obj : String → List (String × Value) → Value

/-- `OSPoolPerson` from `src/osg/jupyterhub_util/comanage.py` (and the
identical dataclass in `src/osg/jupyter/comanage.py`): dataclass field
order is `username`, `uid`, `gid`, which fixes the order of the
template-substitution loop in `build_value`. -/
structure OSPoolPerson where
  username : String
  uid : Int
  gid : Int
deriving DecidableEq, Repr

/-- `COmanagePerson` from `src/osg/jupyterhub_util/comanage.py`. -/
structure COmanagePerson where
  sub : String
  groups : List String
  ospool : Option OSPoolPerson
deriving DecidableEq, Repr

/-- Errors raised by the engine.  All of these surface as Python
exceptions: `missingContainer`, `invalidPatchPath` and `invalidPatchOp`
are the three `RuntimeError`s of `kubespawner.py` (the spec's
`MissingContainer` and `InvalidOperation`/`InvalidPath` taxonomy);
`unknownTargetType` is the `KeyError` from `k8s.__dict__[tag]` (the
spec's `UnknownTargetType`); `attributeError` / `keyError` /
`typeError` / `indexError` model the corresponding built-in Python
exceptions from attribute access, dict lookup, iteration and
indexing. -/
inductive PatchError where
  | missingContainer : PatchError
  | invalidPatchPath : String → PatchError
  | invalidPatchOp : String → PatchError
  | unknownTargetType : String → PatchError
  | attributeError : String → PatchError
  | keyError : String → PatchError
  | typeError : PatchError
  | indexError : Nat → PatchError
deriving DecidableEq, Repr

/-- Lookup in a Python dict modelled as an association list
(first match; keys are unique in a genuine dict). -/
def lookupD {α : Type} (d : List (String × α)) (k : String) : Option α :=
  match d with
  | [] => Option.none
  | (k', v) :: rest => if k' = k then some v else lookupD rest k

/-- `d[k] = v` on a Python dict: replace the value of an existing key
in place, otherwise append the new key at the end (insertion order). -/
def dictSet {α : Type} (d : List (String × α)) (k : String) (v : α) :
    List (String × α) :=
  match d with
  | [] => [(k, v)]
  | (k', v') :: rest =>
      if k' = k then (k, v) :: rest else (k', v') :: dictSet rest k v

/-- `d.pop(k, default)` on a Python dict: remove the key (a genuine
dict holds it at most once) and return its value alongside the
remaining dict. -/
def dictPop {α : Type} (d : List (String × α)) (k : String) :
    Option α × List (String × α) :=
  match d with
  | [] => (Option.none, [])
  | (k', v) :: rest =>
      if k' = k then (some v, rest)
      else
        match dictPop rest k with
        | (r, rest') => (r, (k', v) :: rest')

/-- `d.update(src)` on Python dicts: assign every key of `src` into `d`
in iteration order. -/
def dictUpdate (d src : List (String × Value)) : List (String × Value) :=
  src.foldl (fun acc p => dictSet acc p.1 p.2) d

/-- The keys of a dict. -/
def keysD {α : Type} (d : List (String × α)) : List String := d.map (·.1)

/-- `set(a).intersection(b)` on string lists. -/
def interL (a b : List String) : List String := a.filter (fun x => b.contains x)

/-- The group gate used throughout both hook modules:
`if not groups or set(groups).intersection(person.groups)` — an item
applies when its group list is empty or intersects the actor's
groups. -/
def groupsMatch (gs G : List String) : Bool :=
  gs.isEmpty || !(interL gs G).isEmpty

/-- Python `str.replace` on the underlying character lists: replace
every (non-overlapping, leftmost-first) occurrence of `pat` by `rep`.
Each step consumes at least one character of `s`, so the recursion is
driven by a fuel argument that starts at `s.length` (keeping the
definition structurally recursive and hence computable by the kernel).
The patterns used by this program are the nonempty literals
`"{user.username}"`, `"{user.uid}"`, `"{user.gid}"`; the empty-pattern
case never arises here and is left as the identity. -/
def replaceFuel (fuel : Nat) (s pat rep : List Char) : List Char :=
  match fuel with
  | 0 => s
  | fuel + 1 =>
      match s with
      | [] => []
      | c :: rest =>
          if pat ≠ [] ∧ (c :: rest).take pat.length = pat then
            rep ++ replaceFuel fuel ((c :: rest).drop pat.length) pat rep
          else
            c :: replaceFuel fuel rest pat rep

/-- Whether `pat` occurs as a contiguous substring of `s`. -/
def containsL (s pat : List Char) : Bool :=
  match s with
  | [] => decide (pat = [])
  | _ :: rest => (decide (s.take pat.length = pat)) || containsL rest pat

/-- Python `s.replace(old, new)` lifted to `String`. -/
def pyReplace (s pat rep : String) : String :=
  ⟨replaceFuel s.data.length s.data pat.data rep.data⟩

/-- Whether a string contains a given substring (Python `in`). -/
def containsStr (s pat : String) : Bool := containsL s.data pat.data

/-- The substitution loop of `build_value` for a string value when a
user is present: for each dataclass field of `OSPoolPerson` in
declaration order (`username`, `uid`, `gid`), replace every occurrence
of `"{user.<field>}"` by `str(value)`. -/
def substUser (p : OSPoolPerson) (s : String) : String :=
  pyReplace
    (pyReplace
      (pyReplace s "{user.username}" p.username)
      "{user.uid}" (toString p.uid))
    "{user.gid}" (toString p.gid)

/-- The names registered in `kubernetes.client.__dict__` that this
configuration grammar can refer to via the `"_"` key.  The real
registry is the (fixed, closed at import time) attribute dictionary of
the `kubernetes.client` module; the engine only ever consults it by
exact name, so it is modelled by a finite list of the class names
relevant to this repository.  A name outside the registry makes
`k8s.__dict__[tag]` raise `KeyError`. -/
def k8sClasses : List String :=
  ["V1Pod", "V1PodSpec", "V1Container", "V1Volume", "V1VolumeMount",
   "V1NFSVolumeSource", "V1HostPathVolumeSource", "V1SecurityContext",
   "V1PodSecurityContext", "V1EnvVar", "V1ResourceRequirements",
   "V1Toleration", "V1Affinity"]

mutual

/-- `build_value(raw_value, user)` from `kubespawner.py` lines 335-379
(textually identical in `kubespawner_hooks.py` lines 196-240).
Returns `(built, rawAfter)` where `rawAfter` is the raw value as it
stands after the call: `raw_value.pop("_")` removes the type tag from
the raw dict in place, and nested values are likewise mutated in
place.  When the tag is not a registered class name the Python code
raises `KeyError` out of `k8s.__dict__[...]`; the `Except` encoding
drops the (already mutated) raw value on that error path.  `cls(**args)`
is modelled as always accepting its keyword arguments. -/
def buildValue (raw : Value) (user : Option OSPoolPerson) :
    Except PatchError (Value × Value) :=
  match raw with
  | .str s =>
      match user with
      | some p =>
          if s = "{user.uid}" then .ok (.int p.uid, .str s)
          else if s = "{user.gid}" then .ok (.int p.gid, .str s)
          else .ok (.str (substUser p s), .str s)
      | Option.none => .ok (.str s, .str s)
  | .dict entries =>
      match lookupD entries "_" with
      | some tagv =>
          match tagv with
          | .str t =>
              if t ∈ k8sClasses then
                match buildFields true entries user with
                | .ok (bfs, rfs) => .ok (.obj t bfs, .dict rfs)
                | .error e => .error e
              else .error (.unknownTargetType t)
          | _ => .error (.unknownTargetType "")
      | Option.none =>
          match buildFields false entries user with
          | .ok (bfs, rfs) => .ok (.dict bfs, .dict rfs)
          | .error e => .error e
  | .list xs =>
      match buildList xs user with
      | .ok (bs, rs) => .ok (.list bs, .list rs)
      | .error e => .error e
  | v => .ok (v, v)

/-- The `for k, v in raw_value.items(): args[k] = build_value(v, user)`
loop of `build_value`.  When `skipTag` is true the `"_"` entry has been
popped from the dict before the loop; since a Python dict holds each
key at most once, removing the `"_"` entry is rendered as skipping
entries whose key is `"_"`. -/
def buildFields (skipTag : Bool) (entries : List (String × Value))
    (user : Option OSPoolPerson) :
    Except PatchError (List (String × Value) × List (String × Value)) :=
  match entries with
  | [] => .ok ([], [])
  | (k, v) :: rest =>
      if skipTag ∧ k = "_" then buildFields skipTag rest user
      else
        match buildValue v user with
        | .ok (bv, rv) =>
            match buildFields skipTag rest user with
            | .ok (brest, rrest) => .ok ((k, bv) :: brest, (k, rv) :: rrest)
            | .error e => .error e
        | .error e => .error e

/-- The `[build_value(x, user) for x in raw_value]` comprehension of
`build_value`. -/
def buildList (xs : List Value) (user : Option OSPoolPerson) :
    Except PatchError (List Value × List Value) :=
  match xs with
  | [] => .ok ([], [])
  | x :: rest =>
      match buildValue x user with
      | .ok (bx, rx) =>
          match buildList rest user with
          | .ok (brest, rrest) => .ok (bx :: brest, rx :: rrest)
          | .error e => .error e
      | .error e => .error e

end

/-- Python `s.split(sep)` for a single-character separator, over the
character list: no run collapsing, `"".split(sep) = [""]`. -/
def splitOnChar (s : List Char) (sep : Char) : List (List Char) :=
  match s with
  | [] => [[]]
  | c :: rest =>
      let r := splitOnChar rest sep
      if c = sep then [] :: r
      else
        match r with
        | h :: t => (c :: h) :: t
        | [] => [[c]]

/-- `path.split("/")` from `apply_patch`. -/
def splitPath (s : String) : List String :=
  (splitOnChar s.data '/').map (fun l => ⟨l⟩)

/-- A patch operation (`PatchList.spec` entries in `kubespawner.py`):
a slash-delimited path, an op name, and a raw declarative value. -/
structure Patch where
  path : String
  op : String
  value : Value

/-- A navigation step into the target tree: a named attribute access
(`getattr`) or a list index (the notebook container's position inside
`pod.spec.containers`). -/
inductive Step where
  | field : String → Step
  | idx : Nat → Step

/-- Python `getattr(v, name)`: only constructed API objects expose
their fields as attributes; on `None`, scalars, lists and dicts an
attribute access of these schema field names raises `AttributeError`. -/
def getattrV (v : Value) (name : String) : Except PatchError Value :=
  match v with
  | .obj _ fs =>
      match lookupD fs name with
      | some x => .ok x
      | Option.none => .error (.attributeError name)
  | _ => .error (.attributeError name)

/-- Python `setattr(v, name, x)`: assigns an attribute on an API
object (creating it if absent); on any other value it raises
`AttributeError`. -/
def setattrV (v : Value) (name : String) (x : Value) :
    Except PatchError Value :=
  match v with
  | .obj t fs => .ok (.obj t (dictSet fs name x))
  | _ => .error (.attributeError name)

/-- `get_notebook_container` (`kubespawner.py` lines 382-391): scan
`pod.spec.containers` for the first container whose `name` equals
`"notebook"`; absent ⇒ `RuntimeError` (`missingContainer`).  Returns
the index of that container so that mutations through the returned
alias can be rendered as updates inside the pod. -/
def findNotebook (cs : List Value) (i : Nat) : Except PatchError Nat :=
  match cs with
  | [] => .error .missingContainer
  | c :: rest =>
      match getattrV c "name" with
      | .error e => .error e
      | .ok (.str n) =>
          if n = "notebook" then .ok i else findNotebook rest (i + 1)
      | .ok _ => findNotebook rest (i + 1)

/-- The index of the notebook container inside `pod.spec.containers`. -/
def getNotebookIdx (pod : Value) : Except PatchError Nat :=
  match getattrV pod "spec" with
  | .error e => .error e
  | .ok spec =>
      match getattrV spec "containers" with
      | .error e => .error e
      | .ok (.list cs) => findNotebook cs 0
      | .ok _ => .error .typeError

/-- Resolve the first path segment (`kubespawner.py` lines 287-292):
`"pod"` addresses the pod itself, `"notebook"` addresses the notebook
container inside `pod.spec.containers`, anything else raises
`RuntimeError("Not a valid patch path: ...")`. -/
def rootSteps (path : String) (parts : List String) (nb : Nat) :
    Except PatchError (List Step) :=
  match parts.head? with
  | some "pod" => .ok []
  | some "notebook" => .ok [.field "spec", .field "containers", .idx nb]
  | _ => .error (.invalidPatchPath path)

/-- Navigate `steps` down from `v` and rewrite the node found there
with `f`, rebuilding the spine (the functional rendering of mutating
an interior node reached by a `getattr` chain). -/
def modifyAt (v : Value) (steps : List Step)
    (f : Value → Except PatchError Value) : Except PatchError Value :=
  match steps with
  | [] => f v
  | .field n :: rest =>
      match getattrV v n with
      | .error e => .error e
      | .ok cur =>
          match modifyAt cur rest f with
          | .error e => .error e
          | .ok cur' => setattrV v n cur'
  | .idx i :: rest =>
      match v with
      | .list l =>
          if h : i < l.length then
            match modifyAt (l.get ⟨i, h⟩) rest f with
            | .error e => .error e
            | .ok cur' => .ok (.list (l.set i cur'))
          else .error (.indexError i)
      | _ => .error .typeError

/-- Python iteration as used by `list.extend(value)`: a list yields
its elements, a string its characters, a dict its keys; `None` and
numbers are not iterable (`TypeError`). -/
def iterElems (v : Value) : Except PatchError (List Value) :=
  match v with
  | .list l => .ok l
  | .str s => .ok (s.data.map (fun c => .str ⟨[c]⟩))
  | .dict entries => .ok (entries.map (fun p => Value.str p.1))
  | _ => .error .typeError

/-- The `merge-keys` loop of `apply_patch` (`kubespawner.py` lines
324-330) over the entries of the raw patch value as it stands after
`build_value` ran (so with the top-level `"_"` already popped): for
each key other than `"_"`, rebuild the key's value against the user
and assign it into the current field value — by item assignment when
the field holds a dict, by `setattr` otherwise.  (On an error partway
through, Python leaves the already-assigned keys in place; the
`Except` encoding drops that partial state, which no proved property
depends on.) -/
def mergeKeysApply (cur : Value) (entries : List (String × Value))
    (user : Option OSPoolPerson) : Except PatchError Value :=
  match entries with
  | [] => .ok cur
  | (k, v) :: rest =>
      if k = "_" then mergeKeysApply cur rest user
      else
        match buildValue v user with
        | .error e => .error e
        | .ok (bv, _) =>
            match cur with
            | .dict d => mergeKeysApply (.dict (dictSet d k bv)) rest user
            | _ =>
                match setattrV cur k bv with
                | .error e => .error e
                | .ok cur' => mergeKeysApply cur' rest user

/-- The op dispatch of `apply_patch` (`kubespawner.py` lines 305-332),
acting on the node `loc` reached by path navigation, at its field
`last`: the list ops initialize an unset field to `[]` and then
append/extend/prepend; `set` overwrites; `set-default` overwrites only
an unset field; `merge-keys` overwrites an unset field and otherwise
assigns each non-tag key of the raw value individually; any other op
raises `RuntimeError("Not a valid patch op: ...")`. -/
def opApply (loc : Value) (last : String) (op : String)
    (value rawAfter : Value) (user : Option OSPoolPerson) :
    Except PatchError Value :=
  if op = "append" ∨ op = "extend" ∨ op = "prepend" then
    match getattrV loc last with
    | .error e => .error e
    | .ok cur0 =>
        let init : Except PatchError Value :=
          match cur0 with
          | .none => setattrV loc last (.list [])
          | _ => .ok loc
        match init with
        | .error e => .error e
        | .ok loc' =>
            match getattrV loc' last with
            | .error e => .error e
            | .ok cur =>
            if op = "append" then
              match cur with
              | .list l => setattrV loc' last (.list (l ++ [value]))
              | _ => .error (.attributeError "append")
            else if op = "extend" then
              match cur with
              | .list l =>
                  match iterElems value with
                  | .error e => .error e
                  | .ok elems => setattrV loc' last (.list (l ++ elems))
              | _ => .error (.attributeError "extend")
            else
              match cur with
              | .list l => setattrV loc' last (.list (value :: l))
              | _ => .error (.attributeError "insert")
  else if op = "set" then setattrV loc last value
  else if op = "set-default" then
    match getattrV loc last with
    | .error e => .error e
    | .ok .none => setattrV loc last value
    | .ok _ => .ok loc
  else if op = "merge-keys" then
    match getattrV loc last with
    | .error e => .error e
    | .ok .none => setattrV loc last value
    | .ok cur =>
        match rawAfter with
        | .dict entries =>
            match mergeKeysApply cur entries user with
            | .error e => .error e
            | .ok cur' => setattrV loc last cur'
        | _ => .error (.attributeError "items")
  else .error (.invalidPatchOp op)

/-- `apply_patch(patch, pod, user)` (`kubespawner.py` lines 275-332).
Returns the pod after the call together with the raised error, if any.
The order of effects follows the source: the notebook container is
located first (line 280), the value is built (line 285, mutating the
raw patch value), the root segment is resolved (lines 287-292), the
intermediate path segments are navigated (lines 302-303), and finally
the op is dispatched (lines 305-332).  On an error the pod is returned
as it was (no failing branch of the dispatch mutates the pod before
raising, except a `merge-keys` loop failing partway, whose partial
state this encoding drops). -/
def applyPatch (patch : Patch) (pod : Value)
    (user : Option OSPoolPerson) : Value × Option PatchError :=
  match getNotebookIdx pod with
  | .error e => (pod, some e)
  | .ok nb =>
      let parts := splitPath patch.path
      match buildValue patch.value user with
      | .error e => (pod, some e)
      | .ok (value, rawAfter) =>
          match rootSteps patch.path parts nb with
          | .error e => (pod, some e)
          | .ok base =>
              let mids := (parts.drop 1).dropLast
              let last := parts.getLastD ""
              match modifyAt pod (base ++ mids.map Step.field)
                  (fun loc => opApply loc last patch.op value rawAfter user) with
              | .error e => (pod, some e)
              | .ok pod' => (pod', none)

/-- A batch of patch operations applied in order, as in
`modify_pod_hook`: each operation acts on the pod left by the previous
one; the first raised error aborts the remaining operations, and the
pod keeps every mutation already applied (exceptions do not roll the
pod back). -/
def applyPatches (ps : List Patch) (pod : Value)
    (user : Option OSPoolPerson) : Value × Option PatchError :=
  match ps with
  | [] => (pod, none)
  | p :: rest =>
      match applyPatch p pod user with
      | (pod', none) => applyPatches rest pod' user
      | (pod', some e) => (pod', some e)

mutual

/-- Whether a declarative value contains no `"_"` type tag anywhere
(so `build_value` has nothing to pop and leaves the value itself
unchanged). -/
def noTag (v : Value) : Bool :=
  match v with
  | .dict entries => noTagFields entries
  | .list xs => noTagList xs
  | .obj _ fs => noTagFields fs
  | _ => true

/-- `noTag` over the entries of a dict: no key is `"_"` and every
value is itself tag-free. -/
def noTagFields (entries : List (String × Value)) : Bool :=
  match entries with
  | [] => true
  | (k, v) :: rest => (!(k = "_" : Bool)) && noTag v && noTagFields rest

/-- `noTag` over the elements of a list. -/
def noTagList (xs : List Value) : Bool :=
  match xs with
  | [] => true
  | x :: rest => noTag x && noTagList rest

end

/-- `KubespawnerOverride` from `kubespawner_hooks.py`: group-gated
`kubespawner_override` key-value pairs. -/
structure KubespawnerOverride where
  groups : List String
  override : List (String × Value)

/-- `ProfileList` from `kubespawner_hooks.py`: a group-gated list of
server option entries (each a dict). -/
structure ProfileList where
  groups : List String
  servers : List (List (String × Value))

/-- `Configuration` from `kubespawner_hooks.py`. -/
structure Configuration where
  server_defaults : List (String × Value)
  server_overrides : List (String × KubespawnerOverride)
  server_lists : List ProfileList

/-- `get_servers(config, person)` (`kubespawner_hooks.py` lines
162-172): yield, in order, every server of every server list whose
group gate matches the person. -/
def getServers (lists : List ProfileList) (G : List String) :
    List (List (String × Value)) :=
  match lists with
  | [] => []
  | pl :: rest =>
      if groupsMatch pl.groups G then pl.servers ++ getServers rest G
      else getServers rest G

/-- The per-key body of `merge_override` (`kubespawner_hooks.py` lines
255-262): a dict result is unioned into `target[k]` after
`target.setdefault(k, {})` (raising `AttributeError` if the existing
value is not a dict); a list result is concatenated after
`target.setdefault(k, [])` (raising `AttributeError` if the existing
value is not a list); any other result overwrites `target[k]`. -/
def mergeStep (target : List (String × Value)) (k : String) (v : Value) :
    Except PatchError (List (String × Value)) :=
  match v with
  | .dict d =>
      match lookupD target k with
      | some (.dict existing) =>
          .ok (dictSet target k (.dict (dictUpdate existing d)))
      | some _ => .error (.attributeError "update")
      | Option.none => .ok (dictSet target k (.dict (dictUpdate [] d)))
  | .list l =>
      match lookupD target k with
      | some (.list existing) =>
          .ok (dictSet target k (.list (existing ++ l)))
      | some _ => .error (.attributeError "extend")
      | Option.none => .ok (dictSet target k (.list ([] ++ l)))
  | _ => .ok (dictSet target k v)

/-- `merge_override(target, source, user)` (`kubespawner_hooks.py`
lines 243-262).  For each key of `source` in order: build the raw
value (which may mutate it by popping type tags) and merge it into the
target via `mergeStep`.  Returns the merged target together with the
source as it stands after the builds. -/
def mergeOverride (target source : List (String × Value))
    (user : Option OSPoolPerson) :
    Except PatchError (List (String × Value) × List (String × Value)) :=
  match source with
  | [] => .ok (target, [])
  | (k, rawv) :: rest =>
      match buildValue rawv user with
      | .error e => .error e
      | .ok (v, rawAfter) =>
          match mergeStep target k v with
          | .error e => .error e
          | .ok target' =>
              match mergeOverride target' rest user with
              | .error e => .error e
              | .ok (target'', restAfter) =>
                  .ok (target'', (k, rawAfter) :: restAfter)

/-- The include loop of `options_form` (`kubespawner_hooks.py` lines
107-110): for each include name in listed order, look the override up
in `config.server_overrides` (`KeyError` if absent) and, when its
group gate matches the person, merge it into the composite.  The
override map held in the configuration is threaded through because the
builds inside `merge_override` mutate its raw values in place. -/
def resolveIncludes (composite : List (String × Value))
    (overrides : List (String × KubespawnerOverride))
    (person : COmanagePerson) (includes : List Value) :
    Except PatchError
      (List (String × Value) × List (String × KubespawnerOverride)) :=
  match includes with
  | [] => .ok (composite, overrides)
  | key :: rest =>
      match key with
      | .str k =>
          match lookupD overrides k with
          | Option.none => .error (.keyError k)
          | some ov =>
              if groupsMatch ov.groups person.groups then
                match mergeOverride composite ov.override person.ospool with
                | .error e => .error e
                | .ok (composite', src') =>
                    resolveIncludes composite'
                      (dictSet overrides k ⟨ov.groups, src'⟩) person rest
              else resolveIncludes composite overrides person rest
      | _ => .error (.keyError "")

/-- The per-server body of `options_form` (`kubespawner_hooks.py`
lines 103-114): take the server's `kubespawner_override` dict (a fresh
empty dict when absent), pop its `include` list, start the composite
from a deep copy of `server_defaults`, merge each matching include in
listed order, merge the inline override on top, and store the
composite back as the server's `kubespawner_override` (this mutates
the server entry held in the configuration). -/
def processServer (defaults : List (String × Value))
    (overrides : List (String × KubespawnerOverride))
    (person : COmanagePerson) (s : List (String × Value)) :
    Except PatchError
      (List (String × Value) × List (String × KubespawnerOverride)) :=
  let soVal := (lookupD s "kubespawner_override").getD (.dict [])
  match soVal with
  | .dict so =>
      match dictPop so "include" with
      | (inc?, so') =>
          match iterElems (inc?.getD (.list [])) with
          | .error e => .error e
          | .ok includes =>
              match resolveIncludes defaults overrides person includes with
              | .error e => .error e
              | .ok (composite, overrides') =>
                  match mergeOverride composite so' person.ospool with
                  | .error e => .error e
                  | .ok (composite', _) =>
                      .ok (dictSet s "kubespawner_override" (.dict composite'),
                           overrides')
  | _ => .error (.attributeError "pop")

/-- The loop of `options_form` over the servers of one selected server
list, threading the (mutable) override map. -/
def processServers (defaults : List (String × Value))
    (overrides : List (String × KubespawnerOverride))
    (person : COmanagePerson) (servers : List (List (String × Value))) :
    Except PatchError
      (List (List (String × Value)) × List (String × KubespawnerOverride)) :=
  match servers with
  | [] => .ok ([], overrides)
  | s :: rest =>
      match processServer defaults overrides person s with
      | .error e => .error e
      | .ok (s', overrides') =>
          match processServers defaults overrides' person rest with
          | .error e => .error e
          | .ok (rest', overrides'') => .ok (s' :: rest', overrides'')

/-- The loop of `options_form` over `config.server_lists`: servers of
group-matching lists are processed in order and appended to the
spawner's `profile_list`; the configuration's server lists are mutated
in place, so the processed lists are also returned. -/
def optionsFormLists (defaults : List (String × Value))
    (overrides : List (String × KubespawnerOverride))
    (person : COmanagePerson) (lists : List ProfileList) :
    Except PatchError
      (List (List (String × Value)) × List ProfileList ×
       List (String × KubespawnerOverride)) :=
  match lists with
  | [] => .ok ([], [], overrides)
  | pl :: rest =>
      if groupsMatch pl.groups person.groups then
        match processServers defaults overrides person pl.servers with
        | .error e => .error e
        | .ok (servers', overrides') =>
            match optionsFormLists defaults overrides' person rest with
            | .error e => .error e
            | .ok (acc, rest', overrides'') =>
                .ok (servers' ++ acc, ⟨pl.groups, servers'⟩ :: rest',
                     overrides'')
      else
        match optionsFormLists defaults overrides person rest with
        | .error e => .error e
        | .ok (acc, rest', overrides') => .ok (acc, pl :: rest', overrides')

/-- `options_form(spawner)` (`kubespawner_hooks.py` lines 88-116),
restricted to its core (the spawner's `profile_list` assignment and
the form rendering are host-side): returns the profile list presented
to the user together with the configuration as it stands after the
call — the server entries and override values are mutated in place by
the processing above, while `server_defaults` is only ever deep
copied. -/
def optionsForm (config : Configuration) (person : COmanagePerson) :
    Except PatchError (List (List (String × Value)) × Configuration) :=
  match optionsFormLists config.server_defaults config.server_overrides
      person config.server_lists with
  | .error e => .error e
  | .ok (pl, lists', overrides') =>
      .ok (pl, ⟨config.server_defaults, overrides', lists'⟩)


/-- The pure navigation of `apply_patch`'s getattr chain (lines
302-303), without the write-back of `modifyAt`. -/
def navigate (v : Value) (steps : List Step) : Except PatchError Value :=
  match steps with
  | [] => .ok v
  | .field n :: rest =>
      match getattrV v n with
      | .error e => .error e
      | .ok cur => navigate cur rest
  | .idx i :: rest =>
      match v with
      | .list l =>
          if h : i < l.length then navigate (l.get ⟨i, h⟩) rest
          else .error (.indexError i)
      | _ => .error .typeError


/-- Whether `merge_override` can merge a built value into an existing
slot without a type error: a built dict needs a dict (or absent) slot,
a built list needs a list (or absent) slot, scalars always fit. -/
def slotCompatible (existing : Option Value) (bv : Value) : Prop :=
  match bv with
  | .dict _ => (∃ e, existing = some (.dict e)) ∨ existing = Option.none
  | .list _ => (∃ e, existing = some (.list e)) ∨ existing = Option.none
  | _ => True

/-- The spec's per-key merge rule, stated from the spec's words for
comparison with `merge_override`: a map is unioned key-by-key into the
existing map at the key (created if absent, one level deep), a list is
concatenated after the existing list (created empty if absent), and
anything else overwrites the slot. -/
def mergeSlotSpec (existing : Option Value) (bv : Value) : Value :=
  match bv with
  | .dict d =>
      match existing with
      | some (.dict e) => .dict (dictUpdate e d)
      | _ => .dict (dictUpdate [] d)
  | .list l =>
      match existing with
      | some (.list e) => .list (e ++ l)
      | _ => .list ([] ++ l)
  | v => v


/-!  ## Concrete fixtures for the spec's patch scenarios  -/

/-- A notebook container with the given `security_context`. -/
def nbC (sc : Value) : Value :=
  .obj "V1Container" [("name", .str "notebook"), ("security_context", sc)]

/-- A pod holding one container and a `volumes` field. -/
def podOf (container vols : Value) : Value :=
  .obj "V1Pod" [("spec", .obj "V1PodSpec"
    [("containers", .list [container]), ("volumes", vols)])]

/-- The volume element of the spec's extend scenario. -/
def volumeElem : Value := .dict [("name", .str "x"), ("_type", .str "Volume")]

/-- The extend patch of the spec's scenario. -/
def extendPatch : Patch :=
  { path := "pod/spec/volumes", op := "extend", value := .list [volumeElem] }

/-- The merge-keys patch of the spec's scenario. -/
def mergeKeysPatch : Patch :=
  { path := "notebook/security_context", op := "merge-keys",
    value := .dict [("runAsUser", .int 1000)] }

/-- A pod whose only container is not named `"notebook"`. -/
def podNoNotebook : Value :=
  .obj "V1Pod" [("spec", .obj "V1PodSpec"
    [("containers", .list [.obj "V1Container" [("name", .str "other")]])])]


/-- A one-server configuration used to exhibit the mutation performed
by `options_form`. -/
def cfgMut : Configuration :=
  { server_defaults := [("cpu", .str "1")],
    server_overrides := [],
    server_lists := [⟨[], [[("kubespawner_override", .dict [])]]⟩] }

/-- An actor with no groups and no OSPool identity. -/
def personPlain : COmanagePerson := ⟨"sub", [], Option.none⟩


/-!  ## Helper lemmas  -/

/-- A tag-free dict has no `"_"` key. -/
theorem noTagFields_no_tag_key {entries : List (String × Value)}
    (h : noTagFields entries = true) : lookupD entries "_" = Option.none := by
  induction entries with
  | nil => rfl
  | cons p rest ih =>
      obtain ⟨k, v⟩ := p
      simp only [noTagFields, Bool.and_eq_true, Bool.not_eq_true'] at h
      simp only [lookupD]
      rw [if_neg, ih h.2]
      intro hk
      simp [hk] at h

/-- Building a tag-free value always succeeds and leaves the raw value
unchanged (`build_value` only mutates its argument via the `"_"` pops). -/
theorem buildValue_noTag : ∀ (v : Value) (u : Option OSPoolPerson), noTag v = true →
    ∃ b, buildValue v u = .ok (b, v) := by
  intro v u
  induction v, u using buildValue.induct
  case motive_2 xs user =>
    exact noTagList xs = true → ∃ bs, buildList xs user = .ok (bs, xs)
  case motive_3 skipTag entries user =>
    exact noTagFields entries = true → ∃ bs, buildFields skipTag entries user = .ok (bs, entries)
  case case1 p => intro _; exact ⟨.int p.uid, rfl⟩
  case case2 p h => intro _; exact ⟨.int p.gid, by simp [buildValue, h]⟩
  case case3 s p h1 h2 => intro _; exact ⟨.str (substUser p s), by simp [buildValue, h1, h2]⟩
  case case4 s => intro _; exact ⟨.str s, rfl⟩
  case case5 entries t ht bfs rfs hbf hlk ih =>
      intro hnt
      rw [noTag] at hnt
      rw [noTagFields_no_tag_key hnt] at hlk
      exact absurd hlk (by simp)
  case case6 entries t ht e hbf hlk ih =>
      intro hnt
      rw [noTag] at hnt
      rw [noTagFields_no_tag_key hnt] at hlk
      exact absurd hlk (by simp)
  case case7 entries t ht hlk =>
      intro hnt
      rw [noTag] at hnt
      rw [noTagFields_no_tag_key hnt] at hlk
      exact absurd hlk (by simp)
  case case8 entries tagv hlk hns =>
      intro hnt
      rw [noTag] at hnt
      rw [noTagFields_no_tag_key hnt] at hlk
      exact absurd hlk (by simp)
  case case9 entries hlk bfs rfs hbf ih =>
      intro hnt
      rw [noTag] at hnt
      obtain ⟨bs, hbs⟩ := ih hnt
      rw [hbf] at hbs
      simp only [Except.ok.injEq, Prod.mk.injEq] at hbs
      refine ⟨.dict bfs, ?_⟩
      simp [buildValue, hlk, hbf, hbs.2]
  case case10 entries hlk e hbf ih =>
      intro hnt
      rw [noTag] at hnt
      obtain ⟨bs, hbs⟩ := ih hnt
      rw [hbf] at hbs
      exact absurd hbs (by simp)
  case case11 xs bs rs hbl ih =>
      intro hnt
      rw [noTag] at hnt
      obtain ⟨bs', hbs⟩ := ih hnt
      rw [hbl] at hbs
      simp only [Except.ok.injEq, Prod.mk.injEq] at hbs
      refine ⟨.list bs, ?_⟩
      simp [buildValue, hbl, hbs.2]
  case case12 xs e hbl ih =>
      intro hnt
      rw [noTag] at hnt
      obtain ⟨bs', hbs⟩ := ih hnt
      rw [hbl] at hbs
      exact absurd hbs (by simp)
  case case13 v hs hd hl =>
      intro hnt
      match v with
      | .none => exact ⟨_, rfl⟩
      | .bool b => exact ⟨_, rfl⟩
      | .int n => exact ⟨_, rfl⟩
      | .obj t fs => exact ⟨_, rfl⟩
      | .str s => exact absurd rfl (hs s)
      | .dict d => exact absurd rfl (hd d)
      | .list l => exact absurd rfl (hl l)
  case case14 user => intro _; exact ⟨[], rfl⟩
  case case15 x rest bv rv hx bs rs hrest ih2 ih1 =>
      intro hnt
      rw [noTagList, Bool.and_eq_true] at hnt
      obtain ⟨b, hb⟩ := ih2 hnt.1
      obtain ⟨bs', hbs⟩ := ih1 hnt.2
      rw [hx] at hb; rw [hrest] at hbs
      simp only [Except.ok.injEq, Prod.mk.injEq] at hb hbs
      refine ⟨bv :: bs, ?_⟩
      simp [buildList, hx, hrest, hb.2, hbs.2]
  case case16 x rest bv rv hx e hrest ih2 ih1 =>
      intro hnt
      rw [noTagList, Bool.and_eq_true] at hnt
      obtain ⟨bs', hbs⟩ := ih1 hnt.2
      rw [hrest] at hbs
      exact absurd hbs (by simp)
  case case17 x rest e hx ih1 =>
      intro hnt
      rw [noTagList, Bool.and_eq_true] at hnt
      obtain ⟨b, hb⟩ := ih1 hnt.1
      rw [hx] at hb
      exact absurd hb (by simp)
  case case18 => intro _; exact ⟨[], rfl⟩
  case case19 k v rest h ih1 =>
      intro hnt
      obtain ⟨hs, hk⟩ := h
      subst hk
      simp [noTagFields] at hnt
  case case20 k v rest h bv rv hx bfs rfs hrest ih2 ih1 =>
      intro hnt
      simp only [noTagFields, Bool.and_eq_true, Bool.not_eq_true'] at hnt
      obtain ⟨b, hb⟩ := ih2 hnt.1.2
      obtain ⟨bs', hbs⟩ := ih1 hnt.2
      rw [hx] at hb; rw [hrest] at hbs
      simp only [Except.ok.injEq, Prod.mk.injEq] at hb hbs
      refine ⟨(k, bv) :: bfs, ?_⟩
      simp [buildFields, h, hx, hrest, hb.2, hbs.2]
  case case21 k v rest h bv rv hx e hrest ih2 ih1 =>
      intro hnt
      simp only [noTagFields, Bool.and_eq_true, Bool.not_eq_true'] at hnt
      obtain ⟨bs', hbs⟩ := ih1 hnt.2
      rw [hrest] at hbs
      exact absurd hbs (by simp)
  case case22 k v rest h e hx ih1 =>
      intro hnt
      simp only [noTagFields, Bool.and_eq_true, Bool.not_eq_true'] at hnt
      obtain ⟨b, hb⟩ := ih1 hnt.1.2
      rw [hx] at hb
      exact absurd hb (by simp)



theorem lookupD_dictSet_self {α : Type} (d : List (String × α)) (k : String) (v : α) :
    lookupD (dictSet d k v) k = some v := by
  induction d with
  | nil => simp [dictSet, lookupD]
  | cons p rest ih =>
      obtain ⟨k', v'⟩ := p
      by_cases h : k' = k
      · simp [dictSet, lookupD, h]
      · simp [dictSet, lookupD, h, ih]

theorem lookupD_dictSet_ne {α : Type} (d : List (String × α)) (k k' : String) (v : α)
    (h : k' ≠ k) : lookupD (dictSet d k v) k' = lookupD d k' := by
  induction d with
  | nil => simp [dictSet, lookupD, Ne.symm h]
  | cons p rest ih =>
      obtain ⟨k'', v''⟩ := p
      by_cases h2 : k'' = k
      · subst h2
        simp [dictSet, lookupD, Ne.symm h]
      · simp only [dictSet, if_neg h2, lookupD]
        by_cases h3 : k'' = k'
        · simp [h3]
        · simp [h3, ih]

theorem dictSet_dictSet {α : Type} (d : List (String × α)) (k : String) (a b : α) :
    dictSet (dictSet d k a) k b = dictSet d k b := by
  induction d with
  | nil => simp [dictSet]
  | cons p rest ih =>
      obtain ⟨k', v'⟩ := p
      by_cases h : k' = k
      · simp [dictSet, h]
      · simp [dictSet, h, ih]

theorem opApply_append_unset (loc : Value) (last : String) (v raw : Value)
    (u : Option OSPoolPerson) (h : getattrV loc last = .ok .none) :
    opApply loc last "append" v raw u = setattrV loc last (.list [v]) := by
  match loc, h with
  | .obj t fs, h =>
      simp only [opApply, h]
      simp [setattrV, getattrV, lookupD_dictSet_self, dictSet_dictSet]


theorem opApply_extend_unset (loc : Value) (last : String) (vs : List Value)
    (raw : Value) (u : Option OSPoolPerson) (h : getattrV loc last = .ok .none) :
    opApply loc last "extend" (.list vs) raw u = setattrV loc last (.list vs) := by
  match loc, h with
  | .obj t fs, h =>
      simp only [opApply, h]
      simp [setattrV, getattrV, lookupD_dictSet_self, dictSet_dictSet, iterElems]

theorem opApply_prepend_unset (loc : Value) (last : String) (v raw : Value)
    (u : Option OSPoolPerson) (h : getattrV loc last = .ok .none) :
    opApply loc last "prepend" v raw u = setattrV loc last (.list [v]) := by
  match loc, h with
  | .obj t fs, h =>
      simp only [opApply, h]
      simp [setattrV, getattrV, lookupD_dictSet_self, dictSet_dictSet]

theorem opApply_append_list (loc : Value) (last : String) (l : List Value)
    (v raw : Value) (u : Option OSPoolPerson)
    (h : getattrV loc last = .ok (.list l)) :
    opApply loc last "append" v raw u = setattrV loc last (.list (l ++ [v])) := by
  match loc, h with
  | .obj t fs, h =>
      simp only [opApply, h]
      simp

theorem opApply_extend_list (loc : Value) (last : String) (l vs : List Value)
    (raw : Value) (u : Option OSPoolPerson)
    (h : getattrV loc last = .ok (.list l)) :
    opApply loc last "extend" (.list vs) raw u = setattrV loc last (.list (l ++ vs)) := by
  match loc, h with
  | .obj t fs, h =>
      simp only [opApply, h]
      simp [iterElems]

theorem opApply_prepend_list (loc : Value) (last : String) (l : List Value)
    (v raw : Value) (u : Option OSPoolPerson)
    (h : getattrV loc last = .ok (.list l)) :
    opApply loc last "prepend" v raw u = setattrV loc last (.list (v :: l)) := by
  match loc, h with
  | .obj t fs, h =>
      simp only [opApply, h]
      simp

theorem opApply_extend_unset_eq (loc loc' : Value) (last : String) (vs : List Value)
    (raw raw2 : Value) (u : Option OSPoolPerson)
    (h : getattrV loc last = .ok .none)
    (hset : opApply loc last "set" (.list []) raw2 u = .ok loc') :
    opApply loc last "extend" (.list vs) raw u = opApply loc' last "extend" (.list vs) raw u := by
  match loc, h with
  | .obj t fs, h =>
      simp only [opApply, h] at hset ⊢
      simp [setattrV] at hset
      subst hset
      simp [setattrV, getattrV, lookupD_dictSet_self, dictSet_dictSet, iterElems]


theorem lookupD_eq_none {α : Type} {d : List (String × α)} {k : String}
    (h : k ∉ keysD d) : lookupD d k = Option.none := by
  induction d with
  | nil => rfl
  | cons p rest ih =>
      obtain ⟨k', v⟩ := p
      simp only [keysD, List.map_cons, List.mem_cons] at h
      push_neg at h
      rw [lookupD, if_neg (fun hh => h.1 hh.symm)]
      exact ih h.2

theorem mergeKeysApply_dict (u : Option OSPoolPerson) :
    ∀ (entries d : List (String × Value)),
    (keysD entries).Nodup → (∀ p ∈ entries, noTag p.2 = true) →
    ∃ d', mergeKeysApply (.dict d) entries u = .ok (.dict d') ∧
      (∀ k, (k = "_" ∨ lookupD entries k = Option.none) →
        lookupD d' k = lookupD d k) ∧
      (∀ k rv, k ≠ "_" → lookupD entries k = some rv →
        ∃ bv, buildValue rv u = .ok (bv, rv) ∧ lookupD d' k = some bv) := by
  intro entries
  induction entries with
  | nil =>
      intro d _ _
      exact ⟨d, rfl, fun k _ => rfl, fun k rv hk h => by simp [lookupD] at h⟩
  | cons p rest ih =>
      obtain ⟨k0, v0⟩ := p
      intro d hnd htags
      have hcons := List.nodup_cons.mp (show (k0 :: keysD rest).Nodup from hnd)
      have hnd0 : k0 ∉ keysD rest := hcons.1
      have hnd' : (keysD rest).Nodup := hcons.2
      have htags' : ∀ p ∈ rest, noTag p.2 = true := fun p hp => htags p (by simp [hp])
      by_cases hk0 : k0 = "_"
      · subst hk0
        simp only [mergeKeysApply, if_pos rfl]
        obtain ⟨d', hm, hunch, hbuilt⟩ := ih d hnd' htags'
        refine ⟨d', hm, ?_, ?_⟩
        · intro k hk
          rcases hk with hk | hk
          · exact hunch k (Or.inl hk)
          · simp only [lookupD] at hk
            by_cases hkk : "_" = k
            · simp [hkk] at hk
            · rw [if_neg hkk] at hk
              exact hunch k (Or.inr hk)
        · intro k rv hk hlk
          rw [lookupD, if_neg (Ne.symm hk)] at hlk
          exact hbuilt k rv hk hlk
      · have hv0 : noTag v0 = true := htags (k0, v0) (by simp)
        obtain ⟨b0, hb0⟩ := buildValue_noTag v0 u hv0
        simp only [mergeKeysApply, if_neg hk0, hb0]
        obtain ⟨d', hm, hunch, hbuilt⟩ := ih (dictSet d k0 b0) hnd' htags'
        refine ⟨d', hm, ?_, ?_⟩
        · intro k hk
          rcases hk with hk | hk
          · subst hk
            rw [hunch "_" (Or.inl rfl)]
            exact lookupD_dictSet_ne d k0 "_" b0 (Ne.symm hk0)
          · simp only [lookupD] at hk
            by_cases hkk : k0 = k
            · simp [hkk] at hk
            · rw [if_neg hkk] at hk
              rw [hunch k (Or.inr hk)]
              exact lookupD_dictSet_ne d k0 k b0 (Ne.symm hkk)
        · intro k rv hk hlk
          by_cases hkk : k0 = k
          · subst hkk
            rw [lookupD, if_pos rfl, Option.some.injEq] at hlk
            subst hlk
            refine ⟨b0, hb0, ?_⟩
            rw [hunch k0 (Or.inr (lookupD_eq_none hnd0))]
            exact lookupD_dictSet_self d k0 b0
          · rw [lookupD, if_neg hkk] at hlk
            exact hbuilt k rv hk hlk


theorem mergeKeysApply_obj (u : Option OSPoolPerson) (t : String) :
    ∀ (entries fs : List (String × Value)),
    (keysD entries).Nodup → (∀ p ∈ entries, noTag p.2 = true) →
    ∃ fs', mergeKeysApply (.obj t fs) entries u = .ok (.obj t fs') ∧
      (∀ k, (k = "_" ∨ lookupD entries k = Option.none) →
        lookupD fs' k = lookupD fs k) ∧
      (∀ k rv, k ≠ "_" → lookupD entries k = some rv →
        ∃ bv, buildValue rv u = .ok (bv, rv) ∧ lookupD fs' k = some bv) := by
  intro entries
  induction entries with
  | nil =>
      intro fs _ _
      exact ⟨fs, rfl, fun k _ => rfl, fun k rv hk h => by simp [lookupD] at h⟩
  | cons p rest ih =>
      obtain ⟨k0, v0⟩ := p
      intro fs hnd htags
      have hcons := List.nodup_cons.mp (show (k0 :: keysD rest).Nodup from hnd)
      have hnd0 : k0 ∉ keysD rest := hcons.1
      have hnd' : (keysD rest).Nodup := hcons.2
      have htags' : ∀ p ∈ rest, noTag p.2 = true := fun p hp => htags p (by simp [hp])
      by_cases hk0 : k0 = "_"
      · subst hk0
        simp only [mergeKeysApply, if_pos rfl]
        obtain ⟨fs', hm, hunch, hbuilt⟩ := ih fs hnd' htags'
        refine ⟨fs', hm, ?_, ?_⟩
        · intro k hk
          rcases hk with hk | hk
          · exact hunch k (Or.inl hk)
          · simp only [lookupD] at hk
            by_cases hkk : "_" = k
            · simp [hkk] at hk
            · rw [if_neg hkk] at hk
              exact hunch k (Or.inr hk)
        · intro k rv hk hlk
          rw [lookupD, if_neg (Ne.symm hk)] at hlk
          exact hbuilt k rv hk hlk
      · have hv0 : noTag v0 = true := htags (k0, v0) (by simp)
        obtain ⟨b0, hb0⟩ := buildValue_noTag v0 u hv0
        simp only [mergeKeysApply, if_neg hk0, hb0, setattrV]
        obtain ⟨fs', hm, hunch, hbuilt⟩ := ih (dictSet fs k0 b0) hnd' htags'
        refine ⟨fs', hm, ?_, ?_⟩
        · intro k hk
          rcases hk with hk | hk
          · subst hk
            rw [hunch "_" (Or.inl rfl)]
            exact lookupD_dictSet_ne fs k0 "_" b0 (Ne.symm hk0)
          · simp only [lookupD] at hk
            by_cases hkk : k0 = k
            · simp [hkk] at hk
            · rw [if_neg hkk] at hk
              rw [hunch k (Or.inr hk)]
              exact lookupD_dictSet_ne fs k0 k b0 (Ne.symm hkk)
        · intro k rv hk hlk
          by_cases hkk : k0 = k
          · subst hkk
            rw [lookupD, if_pos rfl, Option.some.injEq] at hlk
            subst hlk
            refine ⟨b0, hb0, ?_⟩
            rw [hunch k0 (Or.inr (lookupD_eq_none hnd0))]
            exact lookupD_dictSet_self fs k0 b0
          · rw [lookupD, if_neg hkk] at hlk
            exact hbuilt k rv hk hlk

theorem opApply_mergeKeys_unset (loc : Value) (last : String) (value raw : Value)
    (u : Option OSPoolPerson) (h : getattrV loc last = .ok .none) :
    opApply loc last "merge-keys" value raw u = opApply loc last "set" value raw u := by
  match loc, h with
  | .obj t fs, h =>
      simp only [opApply, h]
      simp

theorem opApply_mergeKeys_set (loc : Value) (last : String) (value : Value)
    (entries : List (String × Value)) (u : Option OSPoolPerson)
    (cur cur' : Value) (h : getattrV loc last = .ok cur) (hne : cur ≠ Value.none)
    (hm : mergeKeysApply cur entries u = .ok cur') :
    opApply loc last "merge-keys" value (.dict entries) u = setattrV loc last cur' := by
  match cur, hne with
  | .bool b, _ => simp only [opApply, h]; simp [hm]
  | .int n, _ => simp only [opApply, h]; simp [hm]
  | .str s, _ => simp only [opApply, h]; simp [hm]
  | .list l, _ => simp only [opApply, h]; simp [hm]
  | .dict d, _ => simp only [opApply, h]; simp [hm]
  | .obj t2 fs2, _ => simp only [opApply, h]; simp [hm]



/-- The group gate holds exactly when the group list is empty or some
group is shared with the actor's. -/
theorem groupsMatch_iff (gs G : List String) :
    groupsMatch gs G = true ↔ (gs = [] ∨ ∃ g ∈ gs, g ∈ G) := by
  simp [groupsMatch, interL, List.isEmpty_iff, List.filter_eq_nil_iff]

/-- If no container is named `"notebook"`, the scan reports the
missing container at every starting index. -/
theorem findNotebook_none {cs : List Value}
    (h : ∀ c ∈ cs, ∃ v, getattrV c "name" = .ok v ∧ v ≠ .str "notebook") :
    ∀ i, findNotebook cs i = .error .missingContainer := by
  induction cs with
  | nil => intro i; rfl
  | cons c rest ih =>
      intro i
      obtain ⟨v, hv, hne⟩ := h c (by simp)
      have hrest := ih (fun c hc => h c (by simp [hc]))
      match v, hne with
      | .str n, hne =>
          have hn : ¬(n = "notebook") := fun hn => hne (by rw [hn])
          simp [findNotebook, hv, hn, hrest]
      | .none, _ => simp [findNotebook, hv, hrest]
      | .bool b, _ => simp [findNotebook, hv, hrest]
      | .int n, _ => simp [findNotebook, hv, hrest]
      | .list l, _ => simp [findNotebook, hv, hrest]
      | .dict d, _ => simp [findNotebook, hv, hrest]
      | .obj t fs, _ => simp [findNotebook, hv, hrest]

/-- C2: for `append`/`extend`/`prepend`, an unset (None) field is first
initialized to an empty list; `append` then adds the built value at the
end, `extend` concatenates the built list after the existing elements,
and `prepend` inserts at index 0; `extend` on an unset field equals
first setting the field to `[]` (via `set`) and then extending; and the
spec's scenario: applying the `extend` patch on `pod/spec/volumes` with
a one-element list twice to a pod whose `volumes` starts unset yields a
non-null one-element list after the first application and a two-element
list after the second. -/
theorem claim_C2 :
    (∀ (loc : Value) (last : String) (v raw : Value) (u : Option OSPoolPerson),
      getattrV loc last = .ok Value.none →
      opApply loc last "append" v raw u = setattrV loc last (.list [v])) ∧
    (∀ (loc : Value) (last : String) (vs : List Value) (raw : Value)
        (u : Option OSPoolPerson),
      getattrV loc last = .ok Value.none →
      opApply loc last "extend" (.list vs) raw u = setattrV loc last (.list vs)) ∧
    (∀ (loc : Value) (last : String) (v raw : Value) (u : Option OSPoolPerson),
      getattrV loc last = .ok Value.none →
      opApply loc last "prepend" v raw u = setattrV loc last (.list [v])) ∧
    (∀ (loc : Value) (last : String) (l : List Value) (v raw : Value)
        (u : Option OSPoolPerson),
      getattrV loc last = .ok (.list l) →
      opApply loc last "append" v raw u = setattrV loc last (.list (l ++ [v]))) ∧
    (∀ (loc : Value) (last : String) (l vs : List Value) (raw : Value)
        (u : Option OSPoolPerson),
      getattrV loc last = .ok (.list l) →
      opApply loc last "extend" (.list vs) raw u = setattrV loc last (.list (l ++ vs))) ∧
    (∀ (loc : Value) (last : String) (l : List Value) (v raw : Value)
        (u : Option OSPoolPerson),
      getattrV loc last = .ok (.list l) →
      opApply loc last "prepend" v raw u = setattrV loc last (.list (v :: l))) ∧
    (∀ (loc loc' : Value) (last : String) (vs : List Value) (raw raw2 : Value)
        (u : Option OSPoolPerson),
      getattrV loc last = .ok Value.none →
      opApply loc last "set" (.list []) raw2 u = .ok loc' →
      opApply loc last "extend" (.list vs) raw u =
        opApply loc' last "extend" (.list vs) raw u) ∧
    (applyPatch extendPatch
        (podOf (nbC Value.none) Value.none) Option.none =
      (podOf (nbC Value.none) (.list [volumeElem]), none) ∧
     Value.list [volumeElem] ≠ Value.none ∧
     applyPatch extendPatch
        (podOf (nbC Value.none) (.list [volumeElem])) Option.none =
      (podOf (nbC Value.none) (.list [volumeElem, volumeElem]), none)) :=
  ⟨opApply_append_unset, opApply_extend_unset, opApply_prepend_unset,
   opApply_append_list, opApply_extend_list, opApply_prepend_list,
   opApply_extend_unset_eq, rfl, by simp, rfl⟩

/-- Witness for C2: the first conjunct applied to a concrete object
whose `volumes` field is unset. -/
theorem claim_C2_witness :
    opApply (.obj "V1PodSpec" [("volumes", Value.none)]) "volumes" "append"
        (.int 5) (.int 5) Option.none =
      setattrV (.obj "V1PodSpec" [("volumes", Value.none)]) "volumes"
        (.list [.int 5]) :=
  claim_C2.1 _ _ _ _ _ rfl


/-- C1: `merge-keys` on an unset (None) field behaves exactly like
`set`; on a set field, the loop writes exactly the non-tag literal keys
of the raw patch value, each rebuilt individually against the user,
and leaves every other key of the existing field unchanged — both when
the field holds a dict and when it holds an API object; and the spec's
scenario: merging `{"runAsUser": 1000}` into a field holding
`{runAsUser: 0, runAsGroup: 0}` yields
`{runAsUser: 1000, runAsGroup: 0}`.  (In the data model of the spec the
`"_"` entry is the ObjectSpec's type tag, not one of its literal field
keys; the loop accordingly skips it.) -/
theorem claim_C1 :
    (∀ (loc : Value) (last : String) (value raw : Value) (u : Option OSPoolPerson),
      getattrV loc last = .ok Value.none →
      opApply loc last "merge-keys" value raw u = opApply loc last "set" value raw u) ∧
    (∀ (loc : Value) (last : String) (value : Value)
        (entries : List (String × Value)) (u : Option OSPoolPerson) (cur cur' : Value),
      getattrV loc last = .ok cur → cur ≠ Value.none →
      mergeKeysApply cur entries u = .ok cur' →
      opApply loc last "merge-keys" value (.dict entries) u = setattrV loc last cur') ∧
    (∀ (entries d : List (String × Value)) (u : Option OSPoolPerson),
      (keysD entries).Nodup → (∀ p ∈ entries, noTag p.2 = true) →
      ∃ d', mergeKeysApply (.dict d) entries u = .ok (.dict d') ∧
        (∀ k, (k = "_" ∨ lookupD entries k = Option.none) →
          lookupD d' k = lookupD d k) ∧
        (∀ k rv, k ≠ "_" → lookupD entries k = some rv →
          ∃ bv, buildValue rv u = .ok (bv, rv) ∧ lookupD d' k = some bv)) ∧
    (∀ (entries fs : List (String × Value)) (u : Option OSPoolPerson) (t : String),
      (keysD entries).Nodup → (∀ p ∈ entries, noTag p.2 = true) →
      ∃ fs', mergeKeysApply (.obj t fs) entries u = .ok (.obj t fs') ∧
        (∀ k, (k = "_" ∨ lookupD entries k = Option.none) →
          lookupD fs' k = lookupD fs k) ∧
        (∀ k rv, k ≠ "_" → lookupD entries k = some rv →
          ∃ bv, buildValue rv u = .ok (bv, rv) ∧ lookupD fs' k = some bv)) ∧
    (applyPatch mergeKeysPatch
        (podOf (nbC (.dict [("runAsUser", .int 0), ("runAsGroup", .int 0)])) Value.none)
        Option.none =
      (podOf (nbC (.dict [("runAsUser", .int 1000), ("runAsGroup", .int 0)])) Value.none,
       none)) :=
  ⟨opApply_mergeKeys_unset,
   opApply_mergeKeys_set,
   fun entries d u hnd ht => mergeKeysApply_dict u entries d hnd ht,
   fun entries fs u t hnd ht => mergeKeysApply_obj u t entries fs hnd ht,
   rfl⟩

/-- Witness for C1: merging into an unset field equals `set` on a
concrete object. -/
theorem claim_C1_witness :
    opApply (.obj "V1Container" [("security_context", Value.none)])
        "security_context" "merge-keys" (.dict [("runAsUser", .int 7)])
        (.dict [("runAsUser", .int 7)]) Option.none =
      opApply (.obj "V1Container" [("security_context", Value.none)])
        "security_context" "set" (.dict [("runAsUser", .int 7)])
        (.dict [("runAsUser", .int 7)]) Option.none :=
  claim_C1.1 _ _ _ _ _ rfl

/-- C7: `get_servers` returns exactly the server payloads of the lists
whose required-group set is empty or intersects the person's group
set, preserving input order (it is a pure, total function). -/
theorem claim_C7 (lists : List ProfileList) (G : List String) :
    getServers lists G =
      (lists.filter
        (fun pl => decide (pl.groups = [] ∨ ∃ g ∈ pl.groups, g ∈ G))).flatMap
        (fun pl => pl.servers) := by
  induction lists with
  | nil => rfl
  | cons pl rest ih =>
      by_cases h : groupsMatch pl.groups G = true
      · rw [getServers, if_pos h, ih, List.filter_cons,
          if_pos (by simpa [groupsMatch_iff] using h)]
        simp [List.flatMap]
      · rw [getServers, if_neg h, ih, List.filter_cons,
          if_neg (by simpa [groupsMatch_iff] using h)]

/-- C10: if the pod's container list holds no container named
`"notebook"`, `apply_patch` raises the missing-container error before
resolving the path or mutating anything — whatever the patch is, even
one rooted at `pod` — and returns the pod unchanged. -/
theorem claim_C10 (patch : Patch) (pod : Value) (u : Option OSPoolPerson)
    (sp : Value) (cs : List Value)
    (h1 : getattrV pod "spec" = .ok sp)
    (h2 : getattrV sp "containers" = .ok (.list cs))
    (h3 : ∀ c ∈ cs, ∃ v, getattrV c "name" = .ok v ∧ v ≠ .str "notebook") :
    applyPatch patch pod u = (pod, some .missingContainer) := by
  have hidx : getNotebookIdx pod = .error .missingContainer := by
    simp only [getNotebookIdx, h1, h2]
    exact findNotebook_none h3 0
  simp only [applyPatch, hidx]

/-- Witness for C10: a pod-rooted `set` patch against a pod whose only
container is named `"other"`. -/
theorem claim_C10_witness :
    applyPatch { path := "pod/spec/volumes", op := "set", value := .int 1 }
        podNoNotebook Option.none = (podNoNotebook, some .missingContainer) :=
  claim_C10 _ _ _ _ _ rfl rfl
    (fun c hc => by
      simp only [List.mem_singleton] at hc
      subst hc
      exact ⟨.str "other", rfl, by simp⟩)

/-- C4 as stated is false: `build_value` mutates a raw dict that
carries a type tag — the `"_"` entry is popped in place — so the value
is not left unchanged, and building the same value object twice in
succession yields a typed object the first time and a plain dict the
second time. -/
theorem claim_C4_counterexample :
    buildValue (.dict [("_", .str "V1Volume"), ("name", .str "x")]) Option.none =
      .ok (.obj "V1Volume" [("name", .str "x")], .dict [("name", .str "x")]) ∧
    Value.dict [("name", .str "x")] ≠ Value.dict [("_", .str "V1Volume"), ("name", .str "x")] ∧
    buildValue (.dict [("name", .str "x")]) Option.none =
      .ok (.dict [("name", .str "x")], .dict [("name", .str "x")]) ∧
    Value.dict [("name", Value.str "x")] ≠ Value.obj "V1Volume" [("name", Value.str "x")] :=
  ⟨rfl, by simp, rfl, by simp⟩

/-- C4 (amended): the builder is deterministic — it is a pure function
of the raw value and the identity — and on every declarative value
containing no type tag it has no side effect: the raw value after the
call is the value itself, so repeated builds of the same value object
agree.  (Values containing a `"_"` type tag are mutated: the tag is
popped in place, see the counterexample.) -/
theorem claim_C4 (v : Value) (u : Option OSPoolPerson) (h : noTag v = true) :
    ∃ b rawAfter, buildValue v u = .ok (b, rawAfter) ∧ rawAfter = v ∧
      buildValue rawAfter u = buildValue v u := by
  obtain ⟨b, hb⟩ := buildValue_noTag v u h
  exact ⟨b, v, hb, rfl, rfl⟩

/-- Witness for C4: the tag-free dict `{"name": "x"}`. -/
theorem claim_C4_witness :
    ∃ b rawAfter,
      buildValue (.dict [("name", .str "x")]) Option.none = .ok (b, rawAfter) ∧
      rawAfter = .dict [("name", .str "x")] ∧
      buildValue rawAfter Option.none = buildValue (.dict [("name", .str "x")]) Option.none :=
  claim_C4 _ _ rfl


end Hooks
namespace Hooks

theorem replaceFuel_not_contains :
    ∀ (fuel : Nat) (s pat rep : List Char), containsL s pat = false →
      s.length ≤ fuel → replaceFuel fuel s pat rep = s := by
  intro fuel
  induction fuel with
  | zero => intro s pat rep _ _; rfl
  | succ n ih =>
      intro s pat rep hc hl
      match s with
      | [] => rfl
      | c :: rest =>
          simp only [containsL, Bool.or_eq_false_iff, decide_eq_false_iff_not] at hc
          rw [replaceFuel, if_neg (fun hh => hc.1 hh.2)]
          rw [ih rest pat rep hc.2 (by simpa using Nat.le_of_succ_le_succ hl)]

theorem pyReplace_not_contains (s pat rep : String)
    (h : containsStr s pat = false) : pyReplace s pat rep = s := by
  show String.mk (replaceFuel s.data.length s.data pat.data rep.data) = s
  rw [replaceFuel_not_contains s.data.length s.data pat.data rep.data h le_rfl]

theorem containsL_self (pat : List Char) (h : pat ≠ []) :
    containsL pat pat = true := by
  match pat, h with
  | c :: rest, _ =>
      simp [containsL]

theorem substUser_not_contains (p : OSPoolPerson) (s : String)
    (h1 : containsStr s "{user.username}" = false)
    (h2 : containsStr s "{user.uid}" = false)
    (h3 : containsStr s "{user.gid}" = false) :
    substUser p s = s := by
  rw [substUser, pyReplace_not_contains s _ _ h1, pyReplace_not_contains s _ _ h2,
    pyReplace_not_contains s _ _ h3]

theorem ne_of_not_containsStr {s pat : String} (h : containsStr s pat = false)
    (hne : pat ≠ "") : s ≠ pat := by
  intro he
  subst he
  have hd : s.data ≠ [] := by
    intro hh
    apply hne
    cases s with
    | mk d => subst hh; rfl
  have h' : containsL s.data s.data = false := h
  rw [containsL_self s.data hd] at h'
  simp at h' 

end Hooks
namespace Hooks

/-- C6: building a template string with an identity present returns the
integer uid/gid when the string is exactly the whole-string uid or gid
placeholder; any other string stays a string, with every recognized
placeholder occurrence substituted by the corresponding field's string
form (the three sequential replacements of `substUser`); a string
containing no recognized placeholder is returned unchanged; and with no
identity every string passes through verbatim, never failing. -/
theorem claim_C6 :
    (∀ (p : OSPoolPerson), buildValue (.str "{user.uid}") (some p) =
        .ok (.int p.uid, .str "{user.uid}")) ∧
    (∀ (p : OSPoolPerson), buildValue (.str "{user.gid}") (some p) =
        .ok (.int p.gid, .str "{user.gid}")) ∧
    (∀ (p : OSPoolPerson) (s : String), s ≠ "{user.uid}" → s ≠ "{user.gid}" →
        buildValue (.str s) (some p) = .ok (.str (substUser p s), .str s)) ∧
    (∀ (p : OSPoolPerson) (s : String),
        containsStr s "{user.username}" = false →
        containsStr s "{user.uid}" = false →
        containsStr s "{user.gid}" = false →
        buildValue (.str s) (some p) = .ok (.str s, .str s)) ∧
    (∀ (s : String), buildValue (.str s) Option.none = .ok (.str s, .str s)) := by
  refine ⟨fun p => rfl, fun p => by simp [buildValue], ?_, ?_, fun s => rfl⟩
  · intro p s h1 h2
    simp [buildValue, h1, h2]
  · intro p s h1 h2 h3
    have hu : s ≠ "{user.uid}" := ne_of_not_containsStr h2 (by decide)
    have hg : s ≠ "{user.gid}" := ne_of_not_containsStr h3 (by decide)
    simp [buildValue, hu, hg, substUser_not_contains p s h1 h2 h3]

/-- Witness for C6: a placeholder-free string passes through unchanged
for a concrete identity. -/
theorem claim_C6_witness :
    buildValue (.str "hello world") (some ⟨"alice", 7, 8⟩) =
      .ok (.str "hello world", .str "hello world") :=
  claim_C6.2.2.2.1 ⟨"alice", 7, 8⟩ "hello world" (by decide) (by decide) (by decide)

end Hooks
namespace Hooks

theorem buildFields_lookup :
    ∀ (entries : List (String × Value)) (skip : Bool) (u : Option OSPoolPerson)
      (bfs rfs : List (String × Value)),
    buildFields skip entries u = .ok (bfs, rfs) →
    ∀ k rv, ¬(skip = true ∧ k = "_") → lookupD entries k = some rv →
    ∃ bv rr, buildValue rv u = .ok (bv, rr) ∧
      lookupD bfs k = some bv ∧ lookupD rfs k = some rr := by
  intro entries
  induction entries with
  | nil => intro skip u bfs rfs hb k rv hk hlk; simp [lookupD] at hlk
  | cons p rest ih =>
      obtain ⟨k0, v0⟩ := p
      intro skip u bfs rfs hb k rv hk hlk
      rw [buildFields] at hb
      by_cases hsk : skip = true ∧ k0 = "_"
      · rw [if_pos hsk] at hb
        have hk0 : ¬(k0 = k) := by
          intro hh
          exact hk ⟨hsk.1, by rw [← hh]; exact hsk.2⟩
        rw [lookupD, if_neg hk0] at hlk
        exact ih skip u bfs rfs hb k rv hk hlk
      · rw [if_neg hsk] at hb
        cases hbv : buildValue v0 u with
        | error e => rw [hbv] at hb; exact absurd hb (by simp)
        | ok q =>
            obtain ⟨bv0, rv0⟩ := q
            rw [hbv] at hb
            cases hbr : buildFields skip rest u with
            | error e => rw [hbr] at hb; exact absurd hb (by simp)
            | ok q2 =>
                obtain ⟨brest, rrest⟩ := q2
                rw [hbr] at hb
                simp only [Except.ok.injEq, Prod.mk.injEq] at hb
                obtain ⟨hb1, hb2⟩ := hb
                subst hb1; subst hb2
                by_cases hkk : k0 = k
                · subst hkk
                  rw [lookupD, if_pos rfl, Option.some.injEq] at hlk
                  subst hlk
                  exact ⟨bv0, rv0, hbv, by simp [lookupD], by simp [lookupD]⟩
                · rw [lookupD, if_neg hkk] at hlk
                  obtain ⟨bv, rr, h1, h2, h3⟩ := ih skip u brest rrest hbr k rv hk hlk
                  exact ⟨bv, rr, h1, by simp [lookupD, hkk, h2], by simp [lookupD, hkk, h3]⟩

/-- C8: `build_value` on a dict value with a `"_"` type tag looks the
tag up in the (closed, fixed) registry of Kubernetes API class names:
an unregistered tag fails with the `UnknownTargetType` error (the
`KeyError` from `k8s.__dict__[tag]`), a registered tag constructs the
named object from the recursively built remaining fields, and a dict
without a tag constructs a plain string-keyed map from the recursively
built fields. -/
theorem claim_C8 :
    (∀ (entries : List (String × Value)) (u : Option OSPoolPerson) (t : String),
      lookupD entries "_" = some (.str t) → t ∉ k8sClasses →
      buildValue (.dict entries) u = .error (.unknownTargetType t)) ∧
    (∀ (entries : List (String × Value)) (u : Option OSPoolPerson) (t : String),
      lookupD entries "_" = some (.str t) → t ∈ k8sClasses →
      (∃ bfs rfs, buildFields true entries u = .ok (bfs, rfs) ∧
        buildValue (.dict entries) u = .ok (.obj t bfs, .dict rfs)) ∨
      (∃ e, buildFields true entries u = .error e ∧
        buildValue (.dict entries) u = .error e)) ∧
    (∀ (entries : List (String × Value)) (u : Option OSPoolPerson),
      lookupD entries "_" = Option.none →
      (∃ bfs rfs, buildFields false entries u = .ok (bfs, rfs) ∧
        buildValue (.dict entries) u = .ok (.dict bfs, .dict rfs)) ∨
      (∃ e, buildFields false entries u = .error e ∧
        buildValue (.dict entries) u = .error e)) ∧
    (∀ (entries : List (String × Value)) (skip : Bool) (u : Option OSPoolPerson)
        (bfs rfs : List (String × Value)),
      buildFields skip entries u = .ok (bfs, rfs) →
      ∀ k rv, ¬(skip = true ∧ k = "_") → lookupD entries k = some rv →
      ∃ bv rr, buildValue rv u = .ok (bv, rr) ∧
        lookupD bfs k = some bv ∧ lookupD rfs k = some rr) := by
  refine ⟨?_, ?_, ?_, buildFields_lookup⟩
  · intro entries u t hlk ht
    simp only [buildValue, hlk]
    rw [if_neg ht]
  · intro entries u t hlk ht
    cases hbf : buildFields true entries u with
    | error e => right; exact ⟨e, rfl, by simp only [buildValue, hlk]; rw [if_pos ht, hbf]⟩
    | ok q =>
        obtain ⟨bfs, rfs⟩ := q
        left
        exact ⟨bfs, rfs, rfl, by simp only [buildValue, hlk]; rw [if_pos ht, hbf]⟩
  · intro entries u hlk
    cases hbf : buildFields false entries u with
    | error e => right; exact ⟨e, rfl, by simp only [buildValue, hlk, hbf]⟩
    | ok q =>
        obtain ⟨bfs, rfs⟩ := q
        left
        exact ⟨bfs, rfs, rfl, by simp only [buildValue, hlk, hbf]⟩

/-- Witness for C8: an unregistered tag fails with `UnknownTargetType`. -/
theorem claim_C8_witness :
    buildValue (.dict [("_", .str "V1Frobnicator")]) Option.none =
      .error (.unknownTargetType "V1Frobnicator") :=
  claim_C8.1 _ _ _ rfl (by decide)

end Hooks
namespace Hooks

theorem modifyAt_of_f_error :
    ∀ (steps : List Step) (v loc : Value) (f : Value → Except PatchError Value)
      (e : PatchError),
    navigate v steps = .ok loc → f loc = .error e →
    modifyAt v steps f = .error e := by
  intro steps
  induction steps with
  | nil =>
      intro v loc f e hn hf
      simp only [navigate, Except.ok.injEq] at hn
      subst hn
      simpa [modifyAt] using hf
  | cons st rest ih =>
      intro v loc f e hn hf
      cases st with
      | field n =>
          cases hg : getattrV v n with
          | error e2 => simp [navigate, hg] at hn
          | ok cur =>
              simp only [navigate, hg] at hn
              simp only [modifyAt, hg, ih cur loc f e hn hf]
      | idx i =>
          cases v with
          | list l =>
              by_cases hi : i < l.length
              · simp only [navigate, dif_pos hi] at hn
                simp only [modifyAt, dif_pos hi, ih _ loc f e hn hf]
              · simp [navigate, dif_neg hi] at hn
          | none => simp [navigate] at hn
          | bool b => simp [navigate] at hn
          | int n2 => simp [navigate] at hn
          | str s => simp [navigate] at hn
          | dict d => simp [navigate] at hn
          | obj t fs => simp [navigate] at hn

theorem opApply_invalid (loc : Value) (last op : String) (value raw : Value)
    (u : Option OSPoolPerson)
    (h : op ∉ ["append", "extend", "prepend", "set", "set-default", "merge-keys"]) :
    opApply loc last op value raw u = .error (.invalidPatchOp op) := by
  simp only [List.mem_cons, List.mem_singleton] at h
  push_neg at h
  obtain ⟨h1, h2, h3, h4, h5, h6⟩ := h
  rw [opApply, if_neg (by simp [h1, h2, h3]), if_neg h4, if_neg h5, if_neg h6.1]

theorem rootSteps_invalid (path : String) (parts : List String) (nb : Nat)
    (h1 : parts.head? ≠ some "pod") (h2 : parts.head? ≠ some "notebook") :
    rootSteps path parts nb = .error (.invalidPatchPath path) := by
  rw [rootSteps]
  cases hh : parts.head? with
  | none => rfl
  | some s =>
      rw [hh] at h1 h2
      have hs1 : ¬(s = "pod") := fun he => h1 (by rw [he])
      have hs2 : ¬(s = "notebook") := fun he => h2 (by rw [he])
      split
      · next heq => rw [Option.some.injEq] at heq; exact absurd heq hs1
      · next heq => rw [Option.some.injEq] at heq; exact absurd heq hs2
      · rfl

theorem applyPatches_append_ok {pre : List Patch} :
    ∀ {pod pod' : Value} {u : Option OSPoolPerson} (more : List Patch),
    applyPatches pre pod u = (pod', none) →
    applyPatches (pre ++ more) pod u = applyPatches more pod' u := by
  induction pre with
  | nil =>
      intro pod pod' u more h
      simp only [applyPatches, Prod.mk.injEq] at h
      rw [List.nil_append, h.1]
  | cons p rest ih =>
      intro pod pod' u more h
      rw [applyPatches] at h
      rw [List.cons_append, applyPatches]
      cases hp : applyPatch p pod u with
      | mk pod2 err =>
          rw [hp] at h
          match err, h with
          | none, h => exact ih more h
          | some e, h => simp at h

end Hooks
namespace Hooks

theorem applyPatch_invalid_op (patch : Patch) (pod : Value) (u : Option OSPoolPerson)
    (nb : Nat) (bv ra : Value) (base : List Step) (loc : Value)
    (hnb : getNotebookIdx pod = .ok nb)
    (hbv : buildValue patch.value u = .ok (bv, ra))
    (hroot : rootSteps patch.path (splitPath patch.path) nb = .ok base)
    (hnav : navigate pod
      (base ++ (((splitPath patch.path).drop 1).dropLast).map Step.field) = .ok loc)
    (hop : patch.op ∉ ["append", "extend", "prepend", "set", "set-default", "merge-keys"]) :
    applyPatch patch pod u = (pod, some (.invalidPatchOp patch.op)) := by
  have hf := modifyAt_of_f_error _ pod loc
    (fun l => opApply l ((splitPath patch.path).getLastD "") patch.op bv ra u) _
    hnav (opApply_invalid loc _ _ bv ra u hop)
  simp only [applyPatch, hnb, hbv, hroot, hf]

theorem applyPatch_invalid_root (patch : Patch) (pod : Value)
    (u : Option OSPoolPerson) (nb : Nat) (bv ra : Value)
    (hnb : getNotebookIdx pod = .ok nb)
    (hbv : buildValue patch.value u = .ok (bv, ra))
    (h1 : (splitPath patch.path).head? ≠ some "pod")
    (h2 : (splitPath patch.path).head? ≠ some "notebook") :
    applyPatch patch pod u = (pod, some (.invalidPatchPath patch.path)) := by
  simp only [applyPatch, hnb, hbv,
    rootSteps_invalid patch.path (splitPath patch.path) nb h1 h2]

end Hooks
namespace Hooks

/-- C3: in a batch of patch operations applied in order, an operation
whose op is not one of the six recognized ops, or whose first path
segment is neither `"pod"` nor `"notebook"`, raises the corresponding
`RuntimeError` (the spec's fatal `InvalidOperation`): the error aborts
all remaining operations of the batch, and the mutations already made
by the preceding operations are kept — the returned tree is exactly the
tree left by the prefix, with no rollback.  (The bad-op error is raised
only after the notebook lookup, the value build, the root resolution
and the path navigation succeed, matching the order of effects in
`apply_patch`.) -/
theorem claim_C3 :
    (∀ (pre : List Patch) (f : Patch) (rest : List Patch) (pod pod' : Value)
        (u : Option OSPoolPerson) (nb : Nat) (bv ra : Value) (base : List Step)
        (loc : Value),
      applyPatches pre pod u = (pod', none) →
      getNotebookIdx pod' = .ok nb →
      buildValue f.value u = .ok (bv, ra) →
      rootSteps f.path (splitPath f.path) nb = .ok base →
      navigate pod'
        (base ++ (((splitPath f.path).drop 1).dropLast).map Step.field) = .ok loc →
      f.op ∉ ["append", "extend", "prepend", "set", "set-default", "merge-keys"] →
      applyPatches (pre ++ f :: rest) pod u = (pod', some (.invalidPatchOp f.op))) ∧
    (∀ (pre : List Patch) (f : Patch) (rest : List Patch) (pod pod' : Value)
        (u : Option OSPoolPerson) (nb : Nat) (bv ra : Value),
      applyPatches pre pod u = (pod', none) →
      getNotebookIdx pod' = .ok nb →
      buildValue f.value u = .ok (bv, ra) →
      (splitPath f.path).head? ≠ some "pod" →
      (splitPath f.path).head? ≠ some "notebook" →
      applyPatches (pre ++ f :: rest) pod u = (pod', some (.invalidPatchPath f.path))) := by
  constructor
  · intro pre f rest pod pod' u nb bv ra base loc hpre hnb hbv hroot hnav hop
    rw [applyPatches_append_ok _ hpre, applyPatches,
      applyPatch_invalid_op f pod' u nb bv ra base loc hnb hbv hroot hnav hop]
  · intro pre f rest pod pod' u nb bv ra hpre hnb hbv h1 h2
    rw [applyPatches_append_ok _ hpre, applyPatches,
      applyPatch_invalid_root f pod' u nb bv ra hnb hbv h1 h2]

/-- Witness for C3: after one successful `extend`, an unrecognized op
`"replace"` aborts the batch with the invalid-op error, keeping the
extended volume list and never reaching the trailing operation. -/
theorem claim_C3_witness :
    applyPatches
        ([extendPatch] ++
          { path := "pod/spec/volumes", op := "replace", value := .int 3 } ::
          [extendPatch])
        (podOf (nbC Value.none) Value.none) Option.none =
      (podOf (nbC Value.none) (.list [volumeElem]),
       some (.invalidPatchOp "replace")) :=
  claim_C3.1 [extendPatch] _ [extendPatch]
    (podOf (nbC Value.none) Value.none)
    (podOf (nbC Value.none) (.list [volumeElem]))
    Option.none 0 (.int 3) (.int 3) [] (.obj "V1PodSpec"
      [("containers", .list [nbC Value.none]), ("volumes", .list [volumeElem])])
    rfl rfl rfl rfl rfl (by decide)

end Hooks
namespace Hooks

theorem mergeOverride_spec (u : Option OSPoolPerson) :
    ∀ (source target : List (String × Value)),
    (keysD source).Nodup → (∀ p ∈ source, noTag p.2 = true) →
    (∀ k rv bv, lookupD source k = some rv → buildValue rv u = .ok (bv, rv) →
      slotCompatible (lookupD target k) bv) →
    ∃ target', mergeOverride target source u = .ok (target', source) ∧
      (∀ k, lookupD source k = Option.none →
        lookupD target' k = lookupD target k) ∧
      (∀ k rv, lookupD source k = some rv →
        ∃ bv, buildValue rv u = .ok (bv, rv) ∧
          lookupD target' k = some (mergeSlotSpec (lookupD target k) bv)) := by
  intro source
  induction source with
  | nil =>
      intro target _ _ _
      exact ⟨target, rfl, fun k _ => rfl, fun k rv h => by simp [lookupD] at h⟩
  | cons p rest ih =>
      obtain ⟨k0, rv0⟩ := p
      intro target hnd htags hcompat
      have hcons := List.nodup_cons.mp (show (k0 :: keysD rest).Nodup from hnd)
      have hnd0 : k0 ∉ keysD rest := hcons.1
      have hnd' : (keysD rest).Nodup := hcons.2
      have htags' : ∀ p ∈ rest, noTag p.2 = true := fun p hp => htags p (by simp [hp])
      obtain ⟨b0, hb0⟩ := buildValue_noTag rv0 u (htags (k0, rv0) (by simp))
      have hcompat0 : slotCompatible (lookupD target k0) b0 :=
        hcompat k0 rv0 b0 (by simp [lookupD]) hb0
      have hstep : mergeStep target k0 b0 =
          .ok (dictSet target k0 (mergeSlotSpec (lookupD target k0) b0)) := by
        match b0, hcompat0 with
        | .dict d, hcompat0 =>
            rcases hcompat0 with ⟨e, he⟩ | he <;> simp [mergeStep, mergeSlotSpec, he]
        | .list l, hcompat0 =>
            rcases hcompat0 with ⟨e, he⟩ | he <;> simp [mergeStep, mergeSlotSpec, he]
        | .none, _ => simp [mergeStep, mergeSlotSpec]
        | .bool b, _ => simp [mergeStep, mergeSlotSpec]
        | .int n, _ => simp [mergeStep, mergeSlotSpec]
        | .str s, _ => simp [mergeStep, mergeSlotSpec]
        | .obj t fs, _ => simp [mergeStep, mergeSlotSpec]
      have hcompat' : ∀ k rv bv, lookupD rest k = some rv →
          buildValue rv u = .ok (bv, rv) →
          slotCompatible
            (lookupD (dictSet target k0 (mergeSlotSpec (lookupD target k0) b0)) k) bv := by
        intro k rv bv hlk hbv
        have hk0 : ¬(k0 = k) := by
          intro hh
          subst hh
          rw [lookupD_eq_none hnd0] at hlk
          exact absurd hlk (by simp)
        rw [lookupD_dictSet_ne target k0 k _ (Ne.symm hk0)]
        exact hcompat k rv bv (by rw [lookupD, if_neg hk0]; exact hlk) hbv
      obtain ⟨target'', hm, hunch, hkey⟩ :=
        ih (dictSet target k0 (mergeSlotSpec (lookupD target k0) b0)) hnd' htags' hcompat'
      refine ⟨target'', ?_, ?_, ?_⟩
      · simp only [mergeOverride, hb0, hstep, hm]
      · intro k hk
        rw [lookupD] at hk
        by_cases hkk : k0 = k
        · rw [if_pos hkk] at hk; exact absurd hk (by simp)
        · rw [if_neg hkk] at hk
          rw [hunch k hk]
          exact lookupD_dictSet_ne target k0 k _ (Ne.symm hkk)
      · intro k rv hlk
        by_cases hkk : k0 = k
        · subst hkk
          rw [lookupD, if_pos rfl, Option.some.injEq] at hlk
          subst hlk
          refine ⟨b0, hb0, ?_⟩
          rw [hunch k0 (lookupD_eq_none hnd0)]
          exact lookupD_dictSet_self target k0 _
        · rw [lookupD, if_neg hkk] at hlk
          obtain ⟨bv, hbv, hl⟩ := hkey k rv hlk
          refine ⟨bv, hbv, ?_⟩
          rw [hl, lookupD_dictSet_ne target k0 k _ (Ne.symm hkk)]

end Hooks
namespace Hooks

theorem keysD_subset_dictSet {α : Type} (d : List (String × α)) (k k' : String)
    (v : α) (h : k' ∈ keysD d) : k' ∈ keysD (dictSet d k v) := by
  induction d with
  | nil => simp [keysD] at h
  | cons p rest ih =>
      obtain ⟨k0, v0⟩ := p
      simp only [keysD, List.map_cons, List.mem_cons] at h
      by_cases hk : k0 = k
      · simp only [dictSet, if_pos hk, keysD, List.map_cons, List.mem_cons]
        rcases h with h | h
        · left; rw [h, hk]
        · right; exact h
      · simp only [dictSet, if_neg hk, keysD, List.map_cons, List.mem_cons]
        rcases h with h | h
        · left; exact h
        · right; exact ih h

theorem mergeStep_keys {target : List (String × Value)} {k : String} {v : Value}
    {target' : List (String × Value)} (h : mergeStep target k v = .ok target') :
    ∀ k', k' ∈ keysD target → k' ∈ keysD target' := by
  intro k' hk'
  match v with
  | .dict d =>
      rw [mergeStep] at h
      cases hl : lookupD target k with
      | none =>
          rw [hl] at h
          simp only [Except.ok.injEq] at h
          subst h
          exact keysD_subset_dictSet target k k' _ hk'
      | some w =>
          match w with
          | .dict e =>
              rw [hl] at h
              simp only [Except.ok.injEq] at h
              subst h
              exact keysD_subset_dictSet target k k' _ hk'
          | .none => rw [hl] at h; exact absurd h (by simp)
          | .bool b => rw [hl] at h; exact absurd h (by simp)
          | .int n => rw [hl] at h; exact absurd h (by simp)
          | .str s => rw [hl] at h; exact absurd h (by simp)
          | .list l => rw [hl] at h; exact absurd h (by simp)
          | .obj t fs => rw [hl] at h; exact absurd h (by simp)
  | .list l =>
      rw [mergeStep] at h
      cases hl : lookupD target k with
      | none =>
          rw [hl] at h
          simp only [Except.ok.injEq] at h
          subst h
          exact keysD_subset_dictSet target k k' _ hk'
      | some w =>
          match w with
          | .list e =>
              rw [hl] at h
              simp only [Except.ok.injEq] at h
              subst h
              exact keysD_subset_dictSet target k k' _ hk'
          | .none => rw [hl] at h; exact absurd h (by simp)
          | .bool b => rw [hl] at h; exact absurd h (by simp)
          | .int n => rw [hl] at h; exact absurd h (by simp)
          | .str s => rw [hl] at h; exact absurd h (by simp)
          | .dict d => rw [hl] at h; exact absurd h (by simp)
          | .obj t fs => rw [hl] at h; exact absurd h (by simp)
  | .none =>
      simp only [mergeStep, Except.ok.injEq] at h
      subst h
      exact keysD_subset_dictSet target k k' _ hk'
  | .bool b =>
      simp only [mergeStep, Except.ok.injEq] at h
      subst h
      exact keysD_subset_dictSet target k k' _ hk'
  | .int n =>
      simp only [mergeStep, Except.ok.injEq] at h
      subst h
      exact keysD_subset_dictSet target k k' _ hk'
  | .str s =>
      simp only [mergeStep, Except.ok.injEq] at h
      subst h
      exact keysD_subset_dictSet target k k' _ hk'
  | .obj t fs =>
      simp only [mergeStep, Except.ok.injEq] at h
      subst h
      exact keysD_subset_dictSet target k k' _ hk'

end Hooks
namespace Hooks

theorem mergeOverride_keys :
    ∀ (source target target' srcAfter : List (String × Value))
      (u : Option OSPoolPerson),
    mergeOverride target source u = .ok (target', srcAfter) →
    ∀ k, k ∈ keysD target → k ∈ keysD target' := by
  intro source
  induction source with
  | nil =>
      intro target target' srcAfter u h k hk
      simp only [mergeOverride, Except.ok.injEq, Prod.mk.injEq] at h
      rw [← h.1]
      exact hk
  | cons p rest ih =>
      obtain ⟨k0, rawv⟩ := p
      intro target target' srcAfter u h k hk
      rw [mergeOverride] at h
      cases hbv : buildValue rawv u with
      | error e => simp only [hbv] at h; exact absurd h (by simp)
      | ok q =>
          obtain ⟨v, ra⟩ := q
          simp only [hbv] at h
          cases hstep : mergeStep target k0 v with
          | error e => simp only [hstep] at h; exact absurd h (by simp)
          | ok target1 =>
              simp only [hstep] at h
              cases hrec : mergeOverride target1 rest u with
              | error e => simp only [hrec] at h; exact absurd h (by simp)
              | ok q2 =>
                  obtain ⟨target2, restAfter⟩ := q2
                  simp only [hrec, Except.ok.injEq, Prod.mk.injEq] at h
                  rw [← h.1]
                  exact ih target1 target2 restAfter u hrec k
                    (mergeStep_keys hstep k hk)

theorem resolveIncludes_keys :
    ∀ (includes : List Value) (composite : List (String × Value))
      (overrides : List (String × KubespawnerOverride)) (person : COmanagePerson)
      (c' : List (String × Value)) (o' : List (String × KubespawnerOverride)),
    resolveIncludes composite overrides person includes = .ok (c', o') →
    ∀ k, k ∈ keysD composite → k ∈ keysD c' := by
  intro includes
  induction includes with
  | nil =>
      intro composite overrides person c' o' h k hk
      simp only [resolveIncludes, Except.ok.injEq, Prod.mk.injEq] at h
      rw [← h.1]
      exact hk
  | cons key rest ih =>
      intro composite overrides person c' o' h k hk
      match key with
      | .str ks =>
          rw [resolveIncludes] at h
          cases hl : lookupD overrides ks with
          | none => simp only [hl] at h; exact absurd h (by simp)
          | some ov =>
              simp only [hl] at h
              by_cases hg : groupsMatch ov.groups person.groups = true
              · rw [if_pos hg] at h
                cases hm : mergeOverride composite ov.override person.ospool with
                | error e => simp only [hm] at h; exact absurd h (by simp)
                | ok q =>
                    obtain ⟨c1, src2⟩ := q
                    simp only [hm] at h
                    exact ih c1 _ person c' o' h k
                      (mergeOverride_keys ov.override composite c1 src2 person.ospool hm k hk)
              · rw [if_neg hg] at h
                exact ih composite overrides person c' o' h k hk
      | .none =>
          have he : resolveIncludes composite overrides person (Value.none :: rest) =
              .error (.keyError "") := rfl
          rw [he] at h
          exact absurd h (by simp)
      | .bool b =>
          have he : resolveIncludes composite overrides person (Value.bool b :: rest) =
              .error (.keyError "") := rfl
          rw [he] at h
          exact absurd h (by simp)
      | .int n =>
          have he : resolveIncludes composite overrides person (Value.int n :: rest) =
              .error (.keyError "") := rfl
          rw [he] at h
          exact absurd h (by simp)
      | .list l =>
          have he : resolveIncludes composite overrides person (Value.list l :: rest) =
              .error (.keyError "") := rfl
          rw [he] at h
          exact absurd h (by simp)
      | .dict d =>
          have he : resolveIncludes composite overrides person (Value.dict d :: rest) =
              .error (.keyError "") := rfl
          rw [he] at h
          exact absurd h (by simp)
      | .obj t fs =>
          have he : resolveIncludes composite overrides person (Value.obj t fs :: rest) =
              .error (.keyError "") := rfl
          rw [he] at h
          exact absurd h (by simp)

theorem processServer_defaults_keys
    (defaults : List (String × Value))
    (overrides : List (String × KubespawnerOverride)) (person : COmanagePerson)
    (s s' : List (String × Value)) (o' : List (String × KubespawnerOverride))
    (h : processServer defaults overrides person s = .ok (s', o')) :
    ∃ comp, lookupD s' "kubespawner_override" = some (.dict comp) ∧
      ∀ k, k ∈ keysD defaults → k ∈ keysD comp := by
  rw [processServer] at h
  cases hso : (lookupD s "kubespawner_override").getD (.dict []) with
  | dict so =>
      simp only [hso] at h
      cases hpop : dictPop so "include" with
      | mk inc2 so2 =>
          simp only [hpop] at h
          cases hinc : iterElems (inc2.getD (.list [])) with
          | error e => simp only [hinc] at h; exact absurd h (by simp)
          | ok includes =>
              simp only [hinc] at h
              cases hres : resolveIncludes defaults overrides person includes with
              | error e => simp only [hres] at h; exact absurd h (by simp)
              | ok q =>
                  obtain ⟨composite, o1⟩ := q
                  simp only [hres] at h
                  cases hm : mergeOverride composite so2 person.ospool with
                  | error e => simp only [hm] at h; exact absurd h (by simp)
                  | ok q2 =>
                      obtain ⟨composite2, src2⟩ := q2
                      simp only [hm, Except.ok.injEq, Prod.mk.injEq] at h
                      refine ⟨composite2, ?_, ?_⟩
                      · rw [← h.1]
                        exact lookupD_dictSet_self s "kubespawner_override" _
                      · intro k hk
                        exact mergeOverride_keys so2 composite composite2 src2
                          person.ospool hm k
                          (resolveIncludes_keys includes defaults overrides person
                            composite o1 hres k hk)
  | none => simp only [hso] at h; exact absurd h (by simp)
  | bool b => simp only [hso] at h; exact absurd h (by simp)
  | int n => simp only [hso] at h; exact absurd h (by simp)
  | str st => simp only [hso] at h; exact absurd h (by simp)
  | list l => simp only [hso] at h; exact absurd h (by simp)
  | obj t fs => simp only [hso] at h; exact absurd h (by simp)

end Hooks
namespace Hooks

/-- C5: the override resolver's merge follows the spec's per-key rule —
for each key of the source in order, the built value is unioned into
the existing map (created if absent, one level deep) when it is a map,
concatenated after the existing list (created empty if absent) when it
is a list, and otherwise overwrites the slot (`mergeSlotSpec` states
the rule in the spec's words), keys not in the source being untouched —
and the composite override computed per server (a deep copy of
`server_defaults`, then each group-matching include in listed order,
then the inline override) contains every key of `server_defaults`:
defaults are never dropped, only overridden. -/
theorem claim_C5 :
    (∀ (u : Option OSPoolPerson) (source target : List (String × Value)),
      (keysD source).Nodup → (∀ p ∈ source, noTag p.2 = true) →
      (∀ k rv bv, lookupD source k = some rv →
        buildValue rv u = .ok (bv, rv) → slotCompatible (lookupD target k) bv) →
      ∃ target', mergeOverride target source u = .ok (target', source) ∧
        (∀ k, lookupD source k = Option.none →
          lookupD target' k = lookupD target k) ∧
        (∀ k rv, lookupD source k = some rv →
          ∃ bv, buildValue rv u = .ok (bv, rv) ∧
            lookupD target' k = some (mergeSlotSpec (lookupD target k) bv))) ∧
    (∀ (defaults : List (String × Value))
        (overrides : List (String × KubespawnerOverride))
        (person : COmanagePerson) (s s' : List (String × Value))
        (o' : List (String × KubespawnerOverride)),
      processServer defaults overrides person s = .ok (s', o') →
      ∃ comp, lookupD s' "kubespawner_override" = some (.dict comp) ∧
        ∀ k, k ∈ keysD defaults → k ∈ keysD comp) :=
  ⟨fun u source target => mergeOverride_spec u source target,
   processServer_defaults_keys⟩

/-- Witness for C5: merging the scalar override `{"cpu": "4"}` into an
accumulator holding `{"cpu": "1"}`. -/
theorem claim_C5_witness :
    ∃ target',
      mergeOverride [("cpu", Value.str "1")] [("cpu", Value.str "4")]
          Option.none = .ok (target', [("cpu", Value.str "4")]) ∧
      (∀ k, lookupD [("cpu", Value.str "4")] k = Option.none →
        lookupD target' k = lookupD [("cpu", Value.str "1")] k) ∧
      (∀ k rv, lookupD [("cpu", Value.str "4")] k = some rv →
        ∃ bv, buildValue rv Option.none = .ok (bv, rv) ∧
          lookupD target' k =
            some (mergeSlotSpec (lookupD [("cpu", Value.str "1")] k) bv)) :=
  claim_C5.1 Option.none [("cpu", Value.str "4")] [("cpu", Value.str "1")]
    (by decide) (by decide)
    (by
      intro k rv bv hlk hbv
      by_cases hk : "cpu" = k
      · subst hk
        simp [lookupD] at hlk
        subst hlk
        simp [buildValue] at hbv
        rw [← hbv]
        trivial
      · simp [lookupD, hk] at hlk)

end Hooks
namespace Hooks

/-- C9 as stated is false: `options_form` mutates the loaded
`Configuration` — the processed server entry's `kubespawner_override`
is replaced in place by the resolved composite — so the configuration
after the call differs from the one before it. -/
theorem claim_C9_counterexample :
    optionsForm cfgMut personPlain =
      .ok ([[("kubespawner_override", .dict [("cpu", .str "1")])]],
        { server_defaults := [("cpu", .str "1")],
          server_overrides := [],
          server_lists :=
            [⟨[], [[("kubespawner_override", .dict [("cpu", .str "1")])]]⟩] }) ∧
    ({ server_defaults := [("cpu", .str "1")],
       server_overrides := [],
       server_lists :=
         [⟨[], [[("kubespawner_override", .dict [("cpu", .str "1")])]]⟩] } :
      Configuration) ≠ cfgMut :=
  ⟨rfl, by simp [cfgMut, Configuration.mk.injEq, ProfileList.mk.injEq]⟩

/-- C9 (amended): the core does not treat the Configuration as fully
read-only — `options_form` mutates the server entries (their
`kubespawner_override` is replaced by the resolved composite, with the
`include` list removed) and the builds pop type tags from override
values in place — but the `server_defaults` map itself is only ever
deep-copied, never written: it is identical before and after every
`options_form` invocation. -/
theorem claim_C9 (config : Configuration) (person : COmanagePerson)
    (pl : List (List (String × Value))) (cfg' : Configuration)
    (h : optionsForm config person = .ok (pl, cfg')) :
    cfg'.server_defaults = config.server_defaults := by
  rw [optionsForm] at h
  cases hof : optionsFormLists config.server_defaults config.server_overrides
      person config.server_lists with
  | error e => simp only [hof] at h; exact absurd h (by simp)
  | ok q =>
      obtain ⟨pl2, lists', overrides'⟩ := q
      simp only [hof, Except.ok.injEq, Prod.mk.injEq] at h
      rw [← h.2]

/-- Witness for C9: the amended theorem applied to the concrete
configuration of the counterexample. -/
theorem claim_C9_witness :
    ({ server_defaults := [("cpu", .str "1")],
       server_overrides := [],
       server_lists :=
         [⟨[], [[("kubespawner_override", .dict [("cpu", .str "1")])]]⟩] } :
      Configuration).server_defaults = cfgMut.server_defaults :=
  claim_C9 cfgMut personPlain
    [[("kubespawner_override", .dict [("cpu", .str "1")])]]
    { server_defaults := [("cpu", .str "1")],
      server_overrides := [],
      server_lists :=
        [⟨[], [[("kubespawner_override", .dict [("cpu", .str "1")])]]⟩] }
    rfl

end Hooks
